import Mathlib

/-!
Verification development for the SAPDA simulator (files `Structure.py` and
`Computation.py`).  The Python code is embedded shallowly:

* states are `String`s, input letters and stack symbols are `Char`s;
* Python strings used as symbol sequences (`remaining_input`, `push_string`)
  are `List Char`, with the one-character string `"e"` becoming `['e']`
  (the code's marker for "empty");
* a stack is a `List Char` with the sentinel `['e']` meaning "emptied";
* fallible Python code (functions that can return `None`) returns `Option`;
* the unbounded `while`/recursion of the search takes explicit fuel, with
  fuel exhaustion standing for Python's `RecursionError`, the `func_timeout`
  deadline, or a diverging loop.

The classes `SAPDA` and `Configuration` are imported by `Computation.py` but
their files are not part of the sources; only the fields of the automaton
that the engine reads are modelled (from the spec's description of the
automaton input), and automaton equality — used by `Leaf.__eq__` — is
structural equality of that description.
-/

set_option synthInstance.maxSize 4000

namespace Sapda

/-- A conjunct `(next_state, push_string)` of a transition. -/
abbrev Conjunct := String × List Char

/-- One transition right-hand side: the tuple of conjuncts. -/
abbrev ConjTrans := List Conjunct

/-- `δ : state → stack_symbol → letter → alternatives`, as nested
association lists (Python nested `dict`s keyed in insertion order). -/
abbrev TransTable := List (String × List (Char × List (Char × List ConjTrans)))

/-- Modelled from the spec: `SAPDA.py` is not among the sources.  Per §6 the
automaton carries states, alphabets, the transition map, initial state and
initial stack symbol; only the fields the engine reads are kept.  Equality
(used by `Leaf.__eq__` via `self.sapda == other.sapda`) compares the
description. -/
structure SAPDA where
  input_alphabet : List Char
  transitions : TransTable
  initial_state : String
  initial_stack_symbol : Char
deriving DecidableEq, Repr

/-- Python's `seq[0]`.  The engine only indexes non-empty sequences (the
sentinels `['e']` keep stacks and remaining input non-empty); on `[]` Python
would raise `IndexError`, we return `'e'`. -/
def head0 (l : List Char) : Char := l.headD 'e'

/-- `δ[state][stack_symbol][letter]`, `none` when any key is absent. -/
def lookup3 (sap : SAPDA) (q : String) (g : Char) (a : Char) : Option (List ConjTrans) :=
  match sap.transitions.lookup q with
  | none => none
  | some m1 =>
    match m1.lookup g with
    | none => none
    | some m2 => m2.lookup a

mutual

/-- A SAPDA configuration: either a `Leaf` (state, remaining input, stack,
internal stack, depth) or a `Tree` (internal-node stack and children).  The
children are a bespoke list type so that the recursions below are mutual
structural recursions. -/
inductive Structure where
  | leaf (sapda : SAPDA) (stack : List Char) (state : String)
      (remaining_input : List Char) (internal_stack : List Char) (depth : Nat)
  | tree (sapda : SAPDA) (stack : List Char) (children : StructureList)

/-- The ordered children of a `Tree`. -/
inductive StructureList where
  | nil
  | cons (head : Structure) (tail : StructureList)

end

namespace StructureList

/-- View the children as an ordinary list. -/
def toList : StructureList → List Structure
  | .nil => []
  | .cons c cs => c :: toList cs

/-- Build children from an ordinary list. -/
def ofList : List Structure → StructureList
  | [] => .nil
  | c :: cs => .cons c (ofList cs)

end StructureList

namespace Structure

/-- `Structure.has_empty_stack`. -/
def has_empty_stack : Structure → Bool
  | .leaf _ st _ _ _ _ => st = ['e']
  | .tree _ st _ => st = ['e']

/-- The `stack` attribute. -/
def stackOf : Structure → List Char
  | .leaf _ st _ _ _ _ => st
  | .tree _ st _ => st

/-- The `state` attribute (`None` on trees). -/
def stateOf : Structure → Option String
  | .leaf _ _ q _ _ _ => some q
  | .tree _ _ _ => none

/-- The `remaining_input` attribute (`None` on trees). -/
def inputOf : Structure → Option (List Char)
  | .leaf _ _ _ w _ _ => some w
  | .tree _ _ _ => none

/-- `isinstance(·, Leaf)`. -/
def isLeafB : Structure → Bool
  | .leaf _ _ _ _ _ _ => true
  | .tree _ _ _ => false

/-- Number of children. -/
def childCount : StructureList → Nat
  | .nil => 0
  | .cons _ cs => childCount cs + 1

mutual

/-- Python `__eq__` on structures: leaves compare automaton, stack, state,
remaining input, internal stack and depth; trees compare length, automaton,
stack and children pairwise; a leaf never equals a tree. -/
def structEq : Structure → Structure → Bool
  | .leaf sap1 st1 q1 w1 i1 d1, .leaf sap2 st2 q2 w2 i2 d2 =>
    decide (sap1 = sap2) && decide (st1 = st2) && decide (q1 = q2) &&
      decide (w1 = w2) && decide (i1 = i2) && decide (d1 = d2)
  | .tree sap1 st1 cs1, .tree sap2 st2 cs2 =>
    decide (childCount cs1 = childCount cs2) && decide (sap1 = sap2) &&
      decide (st1 = st2) && structEqList cs1 cs2
  | _, _ => false

/-- Pairwise `__eq__` on the children (`all(same_check)` in the source). -/
def structEqList : StructureList → StructureList → Bool
  | .nil, .nil => true
  | .cons a as, .cons b bs => structEq a b && structEqList as bs
  | _, _ => false

end

/-- `Leaf.has_valid_transition` for the leaf data (short-circuit order as in
the source: state key, non-empty stack, stack-top key, then letter or `'e'`). -/
def leaf_valid (sap : SAPDA) (st : List Char) (q : String) (w : List Char) : Bool :=
  match sap.transitions.lookup q with
  | none => false
  | some m1 =>
    if st = ['e'] then false
    else
      match m1.lookup (head0 st) with
      | none => false
      | some m2 => (m2.lookup (head0 w)).isSome || (m2.lookup 'e').isSome

mutual

/-- `has_valid_transition`: leaves as above, trees recurse (`any` child). -/
def has_valid_transition : Structure → Bool
  | .leaf sap st q w _ _ => leaf_valid sap st q w
  | .tree _ _ children => anyValid children

/-- The `any(child.has_valid_transition())` over a tree's children. -/
def anyValid : StructureList → Bool
  | .nil => false
  | .cons c cs => has_valid_transition c || anyValid cs

end

mutual

/-- `get_all_leaves`: a leaf is `[self]`, a tree concatenates its children's
leaves in order. -/
def get_all_leaves : Structure → List Structure
  | .leaf sap st q w i d => [.leaf sap st q w i d]
  | .tree _ _ children => allLeavesList children

/-- The child loop of `Tree.get_all_leaves`. -/
def allLeavesList : StructureList → List Structure
  | .nil => []
  | .cons c cs => get_all_leaves c ++ allLeavesList cs

end

/-- `get_active_branches`: the leaves that have a valid transition. -/
def get_active_branches : Structure → List Structure
  | .leaf sap st q w i d =>
    if has_valid_transition (.leaf sap st q w i d) then [.leaf sap st q w i d] else []
  | .tree sap st children =>
    (get_all_leaves (.tree sap st children)).filter fun l => has_valid_transition l

mutual

/-- `get_tree_depth`: `0` on a leaf, `1 + max` of the children on a tree
(Python's `max` over the non-empty children list equals a fold of `max`
starting from `0` on naturals). -/
def get_tree_depth : Structure → Nat
  | .leaf _ _ _ _ _ _ => 0
  | .tree _ _ children => 1 + maxDepthList children

/-- `max` of the children's `get_tree_depth` values (`0` on `[]`). -/
def maxDepthList : StructureList → Nat
  | .nil => 0
  | .cons c cs => max (get_tree_depth c) (maxDepthList cs)

end

/-- `Leaf.leaf_stack_transition`, at the level of the stack value (the Python
method copies the leaf and only rewrites its `stack`).  On an empty list or a
head different from `pop_symbol` the source prints a diagnostic and leaves
the stack unchanged.  Otherwise it pops the head (`['e']` if the stack had
length 1), prepends the push string unless it is `'e'` (inserting the
symbols in reverse order, i.e. list append), and drops a trailing `'e'` from
a stack of length `> 1`. -/
def leaf_stack_transition (stack : List Char) (pop_symbol : Char)
    (push_string : List Char) : List Char :=
  if stack.length = 0 then stack
  else if head0 stack ≠ pop_symbol then stack
  else
    let s1 := if stack.length = 1 then ['e'] else stack.tail
    let s2 := if push_string ≠ ['e'] then push_string ++ s1 else s1
    if s2.length > 1 ∧ s2.getLast? = some 'e' then s2.dropLast else s2

/-- `Leaf.split_leaf`: conjunctive split into a tree (`none` models the
`return None` after the two error diagnostics). -/
def split_leaf (sap : SAPDA) (st : List Char) (_q : String) (w : List Char)
    (d : Nat) (letter : Char) (conjuncts : ConjTrans) : Option Structure :=
  if st = ['e'] then none
  else if letter ≠ 'e' ∧ letter ≠ head0 w then none
  else
    let internal := if st.length = 1 then ['e'] else st.tail
    let child_input := if letter = 'e' then w else if w.length = 1 then ['e'] else w.tail
    some (.tree sap internal
      (StructureList.ofList
        (conjuncts.map fun c => .leaf sap c.2 c.1 child_input internal (d + 1))))

/-- `run_leaf_transition` as a method of `Structure`: a `Tree` returns
itself; a `Leaf` with more than one conjunct splits, otherwise the single
conjunct is applied (input consumed unless the letter is `'e'`, state
updated, then the stack rewritten).  `none` models the paths on which the
Python method does not return a structure (the `split_leaf` error returns
and the unpacking error on an empty conjunct tuple). -/
def run_leaf_transition (s : Structure) (letter : Char) (pop_symbol : Char)
    (conjuncts : ConjTrans) : Option Structure :=
  match s with
  | .tree sap st children => some (.tree sap st children)
  | .leaf sap st q w i d =>
    if conjuncts.length > 1 then split_leaf sap st q w d letter conjuncts
    else
      match conjuncts with
      | [(next_state, push_string)] =>
        let w' := if letter = 'e' then w else if w.length = 1 then ['e'] else w.tail
        some (.leaf sap (leaf_stack_transition st pop_symbol push_string)
          next_state w' i d)
      | _ => none

mutual

/-- `find_leaf_for_transition`: on a `Leaf` the transition is applied to the
configuration itself (with its own stack top as pop symbol); on a `Tree`,
every child equal (`__eq__`) to the target gets the transition, other leaves
are kept, and trees are searched recursively.  `none` propagates a child
application that produced no structure (Python would build a tree containing
`None`, which crashes any later use). -/
def find_leaf_for_transition (s : Structure) (target : Structure)
    (letter : Char) (conjuncts : ConjTrans) : Option Structure :=
  match s with
  | l@(.leaf _ st _ _ _ _) => run_leaf_transition l letter (head0 st) conjuncts
  | .tree sap st children =>
    match findList children target letter conjuncts with
    | none => none
    | some cs => some (.tree sap st cs)

/-- The child loop of `Tree.find_leaf_for_transition`: the rewritten child
(`run_leaf_transition` when the child equals the target, kept when it is
another leaf, searched recursively when it is a tree), consed onto the
rewritten remaining children, any `none` propagating. -/
def findList : StructureList → Structure → Char → ConjTrans → Option StructureList
  | .nil, _, _, _ => some .nil
  | .cons (.leaf sap st q w i d) rest, target, letter, conjuncts =>
    let new_child :=
      if structEq (.leaf sap st q w i d) target then
        run_leaf_transition (.leaf sap st q w i d) letter (head0 st) conjuncts
      else some (.leaf sap st q w i d)
    match new_child with
    | none => none
    | some c =>
      match findList rest target letter conjuncts with
      | none => none
      | some cs => some (.cons c cs)
  | .cons (.tree sap st ccs) rest, target, letter, conjuncts =>
    let new_child :=
      if structEq (.tree sap st ccs) target then
        run_leaf_transition (.tree sap st ccs) letter (head0 st) conjuncts
      else find_leaf_for_transition (.tree sap st ccs) target letter conjuncts
    match new_child with
    | none => none
    | some c =>
      match findList rest target letter conjuncts with
      | none => none
      | some cs => some (.cons c cs)

end

/-- Does `c` synchronise with the first child: a `Leaf` with empty stack and
the same `remaining_input` and `state`. -/
def syncMatch (q : String) (w : List Char) : Structure → Bool
  | .leaf _ cst cq cw _ _ => decide (cst = ['e']) && decide (cw = w) && decide (cq = q)
  | .tree _ _ _ => false

/-- `all` of `syncMatch` over the remaining children. -/
def allSync (q : String) (w : List Char) : StructureList → Bool
  | .nil => true
  | .cons c cs => syncMatch q w c && allSync q w cs

/-- The collapse test of `Tree.synchronise`: the first child is a `Leaf`
with empty stack, and all other children are leaves with empty stack sharing
its `remaining_input` and `state` (so the collected `synchronised_leaves`
list has the same length as `children`).  Returns the shared state and
input. -/
def headSyncInfo : StructureList → Option (String × List Char)
  | .cons (.leaf _ cst cq cw _ _) rest =>
    if cst = ['e'] ∧ allSync cq cw rest then some (cq, cw) else none
  | _ => none

mutual

/-- `synchronise`: a leaf returns itself.  For a tree, if the children
collapse (`headSyncInfo`), the tree becomes a single fresh leaf carrying the
tree's stack (constructor defaults `internal_stack = []`, `depth = 0`);
otherwise the children that are trees are synchronised recursively.  A tree
with no children would raise `IndexError` in Python (trees always have at
least two children); here it falls through to the recursion case and is
returned unchanged. -/
def synchronise : Structure → Structure
  | .leaf sap st q w i d => .leaf sap st q w i d
  | .tree sap st children =>
    match headSyncInfo children with
    | some qw => .leaf sap st qw.1 qw.2 [] 0
    | none => .tree sap st (syncList children)

/-- The recursion loop of `Tree.synchronise`: tree children are rewritten in
place, leaves are kept. -/
def syncList : StructureList → StructureList
  | .nil => .nil
  | .cons (.leaf sap st q w i d) cs => .cons (.leaf sap st q w i d) (syncList cs)
  | .cons (.tree sap st ccs) cs => .cons (synchronise (.tree sap st ccs)) (syncList cs)

end

/-- `Leaf.get_dict_key`: `(state, remaining_input, stack, internal_stack,
depth)`.  A `Tree` has no such method (Python would raise); it gets a junk
key, never used because only leaves enter the dictionary. -/
def dict_key : Structure → String × List Char × List Char × List Char × Nat
  | .leaf _ st q w i d => (q, w, st, i, d)
  | .tree _ _ _ => ("", [], [], [], 0)

end Structure

open Structure

/-- A dictionary key: a leaf's full local identity. -/
abbrev DictKey := String × List Char × List Char × List Char × Nat

/-- One enabled transition: `(letter to read, conjuncts)`. -/
abbrev DictTrans := Char × ConjTrans

/-- The active-leaf dictionary, as an association list in insertion order
(Python `dict` iterates in insertion order; keys are unique). -/
abbrev TransDict := List (DictKey × List DictTrans)

/-- Replace the value at `k` (first occurrence), keeping insertion order. -/
def dictSet (d : TransDict) (k : DictKey) (v : List DictTrans) : TransDict :=
  match d with
  | [] => []
  | (k', v') :: rest => if k' = k then (k, v) :: rest else (k', v') :: dictSet rest k v

/-- Python `dict[k] = v`: replace in place when the key exists, else append
at the end (insertion order). -/
def dictAssign (d : TransDict) (k : DictKey) (v : List DictTrans) : TransDict :=
  if (d.lookup k).isSome then dictSet d k v else d ++ [(k, v)]

/-- The `Computation` object: automaton, input string, trace of
configurations, current configuration, active-leaf dictionary and the
`is_leaf` flag. -/
structure Computation where
  sapda : SAPDA
  input_string : List Char
  computation : List Structure
  configuration : Structure
  transition_dict : TransDict
  is_leaf : Bool

/-- A computation with the dictionary entry at `k` replaced by `v`. -/
def setDict (c : Computation) (k : DictKey) (v : List DictTrans) : Computation :=
  { c with transition_dict := dictSet c.transition_dict k v }

/-- One step of `update_transition_dict` for a single active leaf: if its
key is absent and it has a valid transition, enter the transitions reading
the next input letter, then — when the next letter is not `'e'` — also the
transitions reading `'e'` (appending to the entry just created, or creating
one). -/
def dictStep (sap : SAPDA) (d : TransDict) (b : Structure) : TransDict :=
  match b with
  | .tree _ _ _ => d
  | .leaf _ st q w i dp =>
    let k : DictKey := (q, w, st, i, dp)
    if (d.lookup k).isSome then d
    else if ¬ leaf_valid sap st q w then d
    else
      let d1 :=
        match lookup3 sap q (head0 st) (head0 w) with
        | some ts => d ++ [(k, ts.map fun t => (head0 w, t))]
        | none => d
      if head0 w ≠ 'e' then
        match lookup3 sap q (head0 st) 'e' with
        | some ts =>
          match d1.lookup k with
          | some entry => dictSet d1 k (entry ++ ts.map fun t => ('e', t))
          | none => d1 ++ [(k, ts.map fun t => ('e', t))]
        | none => d1
      else d1

/-- `Computation.update_transition_dict`: fold `dictStep` over the active
branches of the current configuration. -/
def update_transition_dict (c : Computation) : Computation :=
  { c with transition_dict :=
      (get_active_branches c.configuration).foldl (dictStep c.sapda) c.transition_dict }

/-- `Computation.__init__` when no configuration is supplied: a single leaf
`(q₀, input, [Z₀])`, appended to the (empty) computation, then the
dictionary is populated. -/
def initComputation (sap : SAPDA) (input : List Char) : Computation :=
  let l : Structure := .leaf sap [sap.initial_stack_symbol] sap.initial_state input [] 0
  update_transition_dict
    { sapda := sap, input_string := input, computation := [l], configuration := l,
      transition_dict := [], is_leaf := true }

/-- `Computation.__init__` when all fields are supplied (the `backtrack`
path): store them and run `update_transition_dict`. -/
def mkComputation (sap : SAPDA) (input : List Char) (comp : List Structure)
    (config : Structure) (d : TransDict) (il : Bool) : Computation :=
  update_transition_dict
    { sapda := sap, input_string := input, computation := comp, configuration := config,
      transition_dict := d, is_leaf := il }

/-- `Computation.update`: append the new configuration to the trace, make it
current, refresh the dictionary and the `is_leaf` flag. -/
def update (c : Computation) (nc : Structure) : Computation :=
  update_transition_dict
    { c with computation := c.computation ++ [nc], configuration := nc, is_leaf := isLeafB nc }

/-- `Computation.synchronise_loop`: synchronise until the configuration no
longer changes (`__eq__`), updating at each change.  Python recursion; fuel
exhaustion models `RecursionError`. -/
def synchronise_loop : Nat → Computation → Option Computation
  | 0, _ => none
  | fuel + 1, c =>
    let nc := synchronise c.configuration
    if structEq nc c.configuration then some c
    else synchronise_loop fuel (update c nc)

/-- `Computation.is_accepting_config`: the `is_leaf` flag is set, the
configuration's `remaining_input` is `'e'` (`None` on a tree never equals
`'e'`) and its stack is empty. -/
def is_accepting_config (c : Computation) : Bool :=
  c.is_leaf && decide (inputOf c.configuration = some ['e'])
    && has_empty_stack c.configuration

/-- `Computation.is_rejecting_config`, with the source's cascade of checks. -/
def is_rejecting_config (c : Computation) : Bool :=
  if is_accepting_config c then false
  else if (get_active_branches c.configuration).length = 0 then true
  else if get_tree_depth c.configuration > c.input_string.length then true
  else if c.transition_dict.any fun kv => kv.2.length = 0 then true
  else if (get_all_leaves c.configuration).any
      (fun l => ¬ (has_valid_transition l || has_empty_stack l)) then true
  else false

/-- `Computation.is_deterministic_transition`: some active leaf's dictionary
entry has exactly one transition. -/
def is_deterministic_transition (c : Computation) : Bool :=
  (get_active_branches c.configuration).any fun l =>
    match c.transition_dict.lookup (dict_key l) with
    | some ts => ts.length = 1
    | none => false

/-- The measure `len(remaining_input) + len(stack)` used to order active
branches (`0` for a tree, which never occurs among active branches). -/
def branchMeasure : Structure → Nat
  | .leaf _ st _ w _ _ => w.length + st.length
  | .tree _ _ _ => 0

/-- `Computation.order_active_branches`: the active leaves whose key is in
the dictionary (others are only warned about and skipped), stably sorted by
`branchMeasure` ascending.  Python builds `(branch, measure)` pairs, sorts
them stably by the measure (`list.sort` is stable) and projects; a stable
sort's output is unique, so sorting the branches directly with a stable
insertion sort gives the same list. -/
def order_active_branches (c : Computation) : List Structure :=
  ((get_active_branches c.configuration).filter
      (fun b => (c.transition_dict.lookup (dict_key b)).isSome)).insertionSort
    fun a b => branchMeasure a ≤ branchMeasure b

/-- The conjunct reordering inside `order_transitions`: conjuncts that do
not push the leaf's current `(state, stack_top)` pair back, then those that
do. -/
def reorderConjuncts (q : String) (top : Char) (cjs : ConjTrans) : ConjTrans :=
  cjs.filter (fun cj => ¬ (cj.1 = q ∧ head0 cj.2 = top)) ++
    cjs.filter (fun cj => cj.1 = q ∧ head0 cj.2 = top)

/-- `Computation.order_transitions`: a first pass keeps, in dictionary
order, every transition that reads a real letter or has a single conjunct;
a second pass appends the ε-transitions with at least two conjuncts, each
with its conjuncts reordered by `reorderConjuncts`.  A leaf whose key is
absent would raise `KeyError` in Python; every caller reaches this function
only with keys present, and the model reads an empty entry. -/
def order_transitions (c : Computation) (l : Structure) : List DictTrans :=
  let entry := (c.transition_dict.lookup (dict_key l)).getD []
  entry.filter (fun t => t.1 ≠ 'e' ∨ t.2.length = 1) ++
    (entry.filter fun t => t.1 = 'e' ∧ t.2.length > 1).map fun t =>
      (t.1, reorderConjuncts (stateOf l).iget (head0 (stackOf l)) t.2)

/-- Abnormal ends of the deterministic drive.  `recErr` stands for the
exceptions `run_machine` catches around the search (`RecursionError` from
`synchronise_loop`, `FunctionTimedOut` from the deadline, which here shows
up as fuel exhaustion of the unbounded `while` loop) and `crash` for
exceptions it does not catch (a transition application that returned `None`
and corrupted the structure). -/
inductive DetErr where
  | recErr
  | crash
deriving DecidableEq, Repr

/-- One iteration of the `for leaf in ... get_active_branches()` body inside
`run_deterministic_transitions`: if the leaf's entry has exactly one
transition, apply it to the current configuration, update, synchronise. -/
def applyDetBranch (fuel : Nat) (c : Computation) (leaf : Structure) :
    Except DetErr Computation :=
  match c.transition_dict.lookup (dict_key leaf) with
  | some [(letter, conjuncts)] =>
    match find_leaf_for_transition c.configuration leaf letter conjuncts with
    | none => .error .crash
    | some nc =>
      match synchronise_loop fuel (update c nc) with
      | none => .error .recErr
      | some c' => .ok c'
  | _ => .ok c

/-- The branch loop of one `while` iteration. -/
def detFold (fuel : Nat) (c : Computation) : List Structure → Except DetErr Computation
  | [] => .ok c
  | b :: rest =>
    match applyDetBranch fuel c b with
    | .error e => .error e
    | .ok c' => detFold fuel c' rest

/-- The `while is_deterministic_transition()` loop of
`run_deterministic_transitions`; the loop fuel models the possibility of
divergence (or of the deadline). -/
def detLoop (fuel : Nat) : Nat → Computation → Except DetErr ((Bool × Bool) × Computation)
  | 0, _ => .error .recErr
  | loopFuel + 1, c =>
    if is_deterministic_transition c then
      match synchronise_loop fuel c with
      | none => .error .recErr
      | some c1 =>
        if is_accepting_config c1 then .ok ((true, false), c1)
        else if is_rejecting_config c1 then .ok ((false, true), c1)
        else
          match detFold fuel c1 (get_active_branches c1.configuration) with
          | .error e => .error e
          | .ok c2 => detLoop fuel loopFuel c2
    else
      if is_accepting_config c then .ok ((true, false), c)
      else if is_rejecting_config c then .ok ((false, true), c)
      else .ok ((false, false), c)

/-- `Computation.run_deterministic_transitions`: synchronise, then drive all
forced moves; returns the `(accept, reject)` verdict and the final
computation object. -/
def run_deterministic_transitions (fuel : Nat) (c : Computation) :
    Except DetErr ((Bool × Bool) × Computation) :=
  match synchronise_loop fuel c with
  | none => .error .recErr
  | some c' => detLoop fuel fuel c'

/-- Result of `Computation.dfs`.  `acc` carries the computation trace
(`get_computation_list` formats it; the rendering itself is an external
collaborator, so the trace is the list of configurations).  `rejEmpty` is
the literal `[]`, `pynone` the implicit `None` of the fall-through,
`pyStr` the string returned by `backtrack` on an empty path, `recErr` the
caught exceptions (timeout, recursion, `ValueError` from `list.remove`) and
`crash` the uncaught ones. -/
inductive DfsOut where
  | acc (trace : List Structure)
  | rejEmpty
  | pynone
  | pyStr
  | recErr
  | crash

/-- A backtracking frame `(leaf, letter, conjuncts, configuration,
computation, transition_dict, is_leaf)`. -/
structure Frame where
  leaf : Structure
  letter : Char
  conjuncts : ConjTrans
  configuration : Structure
  computation : List Structure
  transition_dict : TransDict
  is_leaf : Bool

/-- Scan of the inner `for index, (letter, conjuncts) in enumerate(...)`
loop of `dfs`: deep-copy the computation, restrict the chosen leaf's entry
to the single candidate, re-enter the deterministic drive.  An accepting
drive returns its trace; a rejecting one moves to the next candidate, and
rejection of the last candidate reports `allReject`; an indeterminate drive
reports the chosen transition and the driven computation. -/
inductive ScanOut where
  | accepted (trace : List Structure)
  | indet (letter : Char) (conjuncts : ConjTrans) (driven : Computation)
  | allReject
  | err (e : DetErr)

/-- The candidate loop of `dfs` for one leaf. -/
def scanTrans (fuel : Nat) (c : Computation) (leaf : Structure) :
    List DictTrans → ScanOut
  | [] => .allReject
  | (letter, conjuncts) :: rest =>
    let newDict := dictAssign c.transition_dict (dict_key leaf) [(letter, conjuncts)]
    let c' := { c with transition_dict := newDict }
    match run_deterministic_transitions fuel c' with
    | .error e => .err e
    | .ok ((accept, reject), c'') =>
      if accept then .accepted c''.computation
      else if reject then
        if rest.isEmpty then .allReject else scanTrans fuel c leaf rest
      else .indet letter conjuncts c''

/-- `Computation.dfs` together with `Computation.backtrack`.  The outer leaf
loop only moves past a leaf whose transition list is empty (every candidate
of a non-empty list returns), so the processed leaf is the first ordered
active branch with a non-empty `order_transitions` list; when there is none
the Python function falls off its end and returns `None`.  `backtrack` pops
the latest frame, rebuilds the computation from it, removes the tried
transition from the restored dictionary entry (`list.remove` raises
`ValueError` — caught, hence `recErr` — when the reordered conjunct tuple is
not in the entry, and `KeyError` — uncaught, hence `crash` — when the key is
missing) and recurses one level shallower. -/
def dfs (fuel : Nat) (c : Computation) (depth : Nat) (path : List Frame) : DfsOut :=
  match fuel with
  | 0 => .recErr
  | f + 1 =>
    match (order_active_branches c).find? (fun l => ¬ (order_transitions c l).isEmpty) with
    | none => .pynone
    | some lf =>
      match scanTrans f c lf (order_transitions c lf) with
      | .err .recErr => .recErr
      | .err .crash => .crash
      | .accepted t => .acc t
      | .indet letter conjuncts c'' =>
        dfs f c'' (depth + 1)
          (path ++ [⟨lf, letter, conjuncts, c.configuration, c.computation,
            c.transition_dict, c.is_leaf⟩])
      | .allReject =>
        if depth = 0 then .rejEmpty
        else
          match path.getLast? with
          | none => .pyStr
          | some fr =>
            match (mkComputation c.sapda c.input_string fr.computation
                fr.configuration fr.transition_dict fr.is_leaf).transition_dict.lookup
                (dict_key fr.leaf) with
            | none => .crash
            | some entry =>
              if (fr.letter, fr.conjuncts) ∈ entry then
                dfs f
                  (setDict
                    (mkComputation c.sapda c.input_string fr.computation
                      fr.configuration fr.transition_dict fr.is_leaf)
                    (dict_key fr.leaf) (entry.erase (fr.letter, fr.conjuncts)))
                  (depth - 1) path.dropLast
              else .recErr

/-- Observable outcome of `Computation.run_machine`.  `accepted` carries the
configuration trace (each element is formatted as a step string by
`get_computation_list`), `rejected` is the empty list, `timeout` the
single-element `['timeout']`, `pynone` the implicit `None` when `dfs` falls
off its end, `pyStr` the backtrack-on-empty-path string, and `stuck` a call
that never returns normally (an uncaught exception, or divergence of the
deterministic drive outside the guarded search). -/
inductive RunOutcome where
  | accepted (trace : List Structure)
  | rejected
  | timeout
  | pynone
  | pyStr
  | stuck

/-- `run_machine` after the input-alphabet guard: initial configuration,
deterministic drive (outside the `try`, so its exceptions and divergence do
not become `['timeout']`), then the guarded `dfs`. -/
def run_machine_body (fuel : Nat) (sap : SAPDA) (input : List Char) : RunOutcome :=
  match run_deterministic_transitions fuel (initComputation sap input) with
  | .error _ => .stuck
  | .ok ((accept, reject), c') =>
    if accept then .accepted c'.computation
    else if reject then .rejected
    else
      match dfs fuel c' 0 [] with
      | .acc t => .accepted t
      | .rejEmpty => .rejected
      | .pynone => .pynone
      | .pyStr => .pyStr
      | .recErr => .timeout
      | .crash => .stuck

/-- `Computation.run_machine`: reject up front any input other than the
literal `'e'` containing a letter outside the input alphabet, then run the
search. -/
def run_machine (fuel : Nat) (sap : SAPDA) (input : List Char) : RunOutcome :=
  if input ≠ ['e'] ∧ input.any fun a => ¬ sap.input_alphabet.contains a then .rejected
  else run_machine_body fuel sap input

/-! ### Concrete automata used as witnesses and counterexamples -/

/-- An automaton with a two-way nondeterministic ε-choice at `q0`, each
branch leading to another two-way dead-end choice: on input `a` the DFS
backtracks twice, empties the choice point's transition list and falls off
the end of its leaf loop. -/
def cexC1 : SAPDA :=
  { input_alphabet := ['a'],
    transitions :=
      [("q0", [('Z', [('e', [[("q1", ['Z'])], [("q2", ['Z'])]])])]),
       ("q1", [('Z', [('e', [[("d1", ['Z'])], [("d2", ['Z'])]])])]),
       ("q2", [('Z', [('e', [[("d3", ['Z'])], [("d4", ['Z'])]])])])],
    initial_state := "q0", initial_stack_symbol := 'Z' }

/-- An automaton whose only choice point offers, on the letter `a`, first a
conjunctive (two-conjunct) transition and then a single-conjunct one. -/
def cex8sapda : SAPDA :=
  { input_alphabet := ['a'],
    transitions :=
      [("q0", [('Z', [('a', [[("p", ['Z']), ("r", ['Z'])], [("s", ['e'])]])])])],
    initial_state := "q0", initial_stack_symbol := 'Z' }

/-- The initial configuration of `cex8sapda` on input `a`: a choice point
with the two transitions above in its dictionary entry. -/
def cex8 : Computation := initComputation cex8sapda ['a']

/-- The single active leaf of `cex8`. -/
def cex8leaf : Structure := .leaf cex8sapda ['Z'] "q0" ['a'] [] 0

/-- An automaton with an ε-conjunctive transition mixing a conjunct that
pushes the current `(state, stack-top)` pair back and one that does not. -/
def cexWsapda : SAPDA :=
  { input_alphabet := ['a'],
    transitions :=
      [("q0", [('Z', [('e', [[("q0", ['Z', 'A']), ("p", ['A'])]])])])],
    initial_state := "q0", initial_stack_symbol := 'Z' }

/-- Its initial configuration on input `a`. -/
def cexW : Computation := initComputation cexWsapda ['a']

/-- Its single active leaf. -/
def cexWleaf : Structure := .leaf cexWsapda ['Z'] "q0" ['a'] [] 0

/-- The `pda` fixture of `Computation.py` (`aⁿbⁿ`, no conjunctive
transitions), used to exercise the whole engine on an accepted word. -/
def pdaFixture : SAPDA :=
  { input_alphabet := ['a', 'b'],
    transitions :=
      [("q0", [('Z', [('a', [[("q1", ['A', 'Z'])]]), ('e', [[("q0", ['e'])]])])]),
       ("q1", [('A', [('a', [[("q1", ['A', 'A'])]]), ('b', [[("q2", ['e'])]])])]),
       ("q2", [('A', [('b', [[("q2", ['e'])]])]), ('Z', [('e', [[("q3", ['e'])]])])])],
    initial_state := "q0", initial_stack_symbol := 'Z' }

/-- Totality of the shortest-work-first preorder on branches. -/
instance branchMeasureIsTotal :
    IsTotal Structure (fun a b => branchMeasure a ≤ branchMeasure b) :=
  ⟨fun a b => Nat.le_total _ _⟩

/-- Transitivity of the shortest-work-first preorder on branches. -/
instance branchMeasureIsTrans :
    IsTrans Structure (fun a b => branchMeasure a ≤ branchMeasure b) :=
  ⟨fun _ _ _ hab hbc => Nat.le_trans hab hbc⟩

/-! ### Definitions taken from the claims' wording, for comparison with the
code above -/

/-- Worded from C4: the remaining input is unchanged if the letter is `'e'`,
becomes `'e'` if it had length 1, and otherwise loses its first character. -/
def spec_ordinary_input (a : Char) (w : List Char) : List Char :=
  if a = 'e' then w else if w.length = 1 then ['e'] else w.tail

/-- Worded from C4: the stack top is removed (leaving `['e']` if the stack
had length 1); if the push string is not `'e'` its symbols are inserted at
the head in reverse order (the leftmost symbol ends up on top); a trailing
`'e'` left on a stack of length greater than one is stripped. -/
def spec_ordinary_stack (stack : List Char) (push_string : List Char) : List Char :=
  let popped := if stack.length = 1 then ['e'] else stack.tail
  let pushed :=
    if push_string ≠ ['e'] then
      push_string.reverse.foldl (fun acc s => s :: acc) popped
    else popped
  if pushed.length > 1 ∧ pushed.getLast? = some 'e' then pushed.dropLast else pushed

mutual

/-- Worded from C10: apply the given transition (with the leaf's own stack
top as pop symbol) to every leaf in the structure that is equal, in the
`__eq__` sense, to the target; leave every other leaf alone. -/
def rewriteMatching (target : Structure) (letter : Char) (conjuncts : ConjTrans) :
    Structure → Option Structure
  | .leaf sap st q w i d =>
    if structEq (.leaf sap st q w i d) target then
      run_leaf_transition (.leaf sap st q w i d) letter (head0 st) conjuncts
    else some (.leaf sap st q w i d)
  | .tree sap st children =>
    match rewriteMatchingList target letter conjuncts children with
    | none => none
    | some cs => some (.tree sap st cs)

/-- `rewriteMatching` over the children. -/
def rewriteMatchingList (target : Structure) (letter : Char) (conjuncts : ConjTrans) :
    StructureList → Option StructureList
  | .nil => some .nil
  | .cons c cs =>
    match rewriteMatching target letter conjuncts c with
    | none => none
    | some c' =>
      match rewriteMatchingList target letter conjuncts cs with
      | none => none
      | some cs' => some (.cons c' cs')

end

/-- A transition reading a real letter with a single conjunct (C8's
"non-ε single-conjunct option"). -/
def isNonEpsSingle (t : DictTrans) : Bool :=
  decide (t.1 ≠ 'e') && decide (t.2.length = 1)

/-- An ε-transition one of whose conjuncts pushes the pair `(q, top)` back
(C8's loop-avoidance criterion). -/
def isPushbackEps (q : String) (top : Char) (t : DictTrans) : Bool :=
  decide (t.1 = 'e') && t.2.any fun cj => decide (cj.1 = q) && decide (head0 cj.2 = top)

/-- Worded from C8: the non-ε single-conjunct transitions all come first,
and the ε-transitions that would push the current `(state, stack_top)` pair
back all come last. -/
def claim8order (q : String) (top : Char) (ts : List DictTrans) : Bool :=
  ((ts.dropWhile fun t => isNonEpsSingle t).all fun t => ¬ isNonEpsSingle t) &&
    ((ts.reverse.dropWhile fun t => isPushbackEps q top t).all fun t => ¬ isPushbackEps q top t)

/-! ## Theorems -/

set_option maxRecDepth 40000 in
/-- End-to-end sanity check of the embedded engine: the repository's own
`pda` fixture accepts `aabb` with a non-empty trace. -/
theorem pdaFixture_accepts_aabb :
    ∃ t, run_machine 50 pdaFixture ['a', 'a', 'b', 'b'] = .accepted t ∧ t.length = 6 :=
  ⟨_, rfl, rfl⟩

theorem allSync_eq_true (q : String) (w : List Char) :
    ∀ l : StructureList,
      (∀ c ∈ l.toList, ∃ sap' i d, c = Structure.leaf sap' ['e'] q w i d) →
      Structure.allSync q w l = true
  | .nil, _ => rfl
  | .cons c cs, h => by
    obtain ⟨sap', i, d, rfl⟩ := h c (by simp [StructureList.toList])
    have ih := allSync_eq_true q w cs fun x hx => h x (by simp [StructureList.toList, hx])
    simp [Structure.allSync, Structure.syncMatch, ih]

/-- C2: a tree all of whose children are leaves with stack `['e']` sharing
one state and one remaining input synchronises to the single leaf carrying
the tree's stack, that state and input, empty internal stack and depth 0. -/
theorem claim2_synchronise_collapse (sap : SAPDA) (st : List Char)
    (children : StructureList) (q : String) (w : List Char)
    (hne : children ≠ .nil)
    (hall : ∀ c ∈ children.toList, ∃ sap' i d, c = Structure.leaf sap' ['e'] q w i d) :
    Structure.synchronise (.tree sap st children) = .leaf sap st q w [] 0 := by
  match children with
  | .nil => exact absurd rfl hne
  | .cons c0 rest =>
    obtain ⟨sap', i, d, rfl⟩ := hall c0 (by simp [StructureList.toList])
    have hrest : Structure.allSync q w rest = true :=
      allSync_eq_true q w rest fun x hx => hall x (by simp [StructureList.toList, hx])
    simp [Structure.synchronise, Structure.headSyncInfo, hrest]

/-- C2 witness: a two-child synchronised tree collapses as stated. -/
theorem claim2_witness :
    Structure.synchronise (.tree cexC1 ['Z', 'A']
        (.cons (.leaf cexC1 ['e'] "q1" ['a'] ['Z'] 1)
          (.cons (.leaf cexC1 ['e'] "q1" ['a'] ['X'] 2) .nil))) =
      .leaf cexC1 ['Z', 'A'] "q1" ['a'] [] 0 :=
  claim2_synchronise_collapse cexC1 ['Z', 'A'] _ "q1" ['a']
    (fun h => StructureList.noConfusion h)
    (by
      intro c hc
      simp [StructureList.toList] at hc
      rcases hc with rfl | rfl
      · exact ⟨cexC1, ['Z'], 1, rfl⟩
      · exact ⟨cexC1, ['X'], 2, rfl⟩)

/-- C9: synchronise is idempotent on fixpoints. -/
theorem claim9_synchronise_idempotent (S : Structure)
    (h : Structure.synchronise S = S) :
    Structure.synchronise (Structure.synchronise S) = S := by rw [h, h]

/-- C9 witness: a concrete fixpoint (a leaf) stays fixed twice over. -/
theorem claim9_witness :
    Structure.synchronise (Structure.synchronise cex8leaf) = cex8leaf :=
  claim9_synchronise_idempotent cex8leaf rfl

/-- C3: a conjunctive transition on a leaf with non-empty, non-`['e']` stack
and a fitting letter yields the tree whose stack is the leaf's stack minus
its top (`['e']` if only the top existed), with one child leaf per conjunct
in order, each child carrying the conjunct's push string as stack, the
conjunct's next state, the input with the letter consumed as in an ordinary
transition, the tree's stack as internal stack, and depth one more than the
parent's. -/
theorem claim3_conjunctive_split (sap : SAPDA) (st : List Char) (q : String)
    (w i : List Char) (d : Nat) (letter pop : Char) (cjs : ConjTrans)
    (hst : st ≠ ['e']) (hst0 : st ≠ [])
    (hletter : letter = 'e' ∨ w.head? = some letter)
    (hcjs : 2 ≤ cjs.length) :
    Structure.run_leaf_transition (.leaf sap st q w i d) letter pop cjs =
      some (.tree sap (if st.length = 1 then ['e'] else st.tail)
        (StructureList.ofList (cjs.map fun c =>
          .leaf sap c.2 c.1
            (if letter = 'e' then w else if w.length = 1 then ['e'] else w.tail)
            (if st.length = 1 then ['e'] else st.tail) (d + 1)))) := by
  have hgt : cjs.length > 1 := hcjs
  have hok : ¬ (letter ≠ 'e' ∧ letter ≠ head0 w) := by
    rcases hletter with h | h
    · exact fun hc => hc.1 h
    · intro hc
      apply hc.2
      cases w with
      | nil => cases h
      | cons x xs => cases h; rfl
  simp [Structure.run_leaf_transition, Structure.split_leaf, hgt, hst, hok]

/-- C3 witness: a concrete two-conjunct split. -/
theorem claim3_witness :
    Structure.run_leaf_transition (.leaf cexC1 ['Z', 'A'] "q0" ['a', 'b'] [] 0)
        'a' 'Z' [("p", ['B']), ("r", ['e'])] =
      some (.tree cexC1 ['A']
        (StructureList.ofList [.leaf cexC1 ['B'] "p" ['b'] ['A'] 1,
          .leaf cexC1 ['e'] "r" ['b'] ['A'] 1])) :=
  claim3_conjunctive_split cexC1 ['Z', 'A'] "q0" ['a', 'b'] [] 0 'a' 'Z'
    [("p", ['B']), ("r", ['e'])] (by decide) (by decide) (.inr rfl) (by decide)

theorem reverse_foldl_cons (l init : List Char) :
    l.reverse.foldl (fun acc s => s :: acc) init = l ++ init := by
  induction l generalizing init with
  | nil => rfl
  | cons x xs ih => simp [List.foldl_append, ih]

/-- C4: a single-conjunct transition whose pop symbol is the stack top
produces a leaf (never a tree) whose input, state and stack are exactly as
the claim words them (`spec_ordinary_input` and `spec_ordinary_stack`). -/
theorem claim4_ordinary_transition (sap : SAPDA) (st : List Char) (q : String)
    (w i : List Char) (d : Nat) (a : Char) (ns : String) (ps : List Char) (pop : Char)
    (hpop : st.head? = some pop) :
    Structure.run_leaf_transition (.leaf sap st q w i d) a pop [(ns, ps)] =
      some (.leaf sap (spec_ordinary_stack st ps) ns (spec_ordinary_input a w) i d) := by
  cases st with
  | nil => cases hpop
  | cons s0 srest =>
    obtain rfl : s0 = pop := by cases hpop; rfl
    have hstack : Structure.leaf_stack_transition (s0 :: srest) s0 ps =
        spec_ordinary_stack (s0 :: srest) ps := by
      simp [Structure.leaf_stack_transition, spec_ordinary_stack, head0,
        reverse_foldl_cons]
    simp [Structure.run_leaf_transition, spec_ordinary_input, hstack]

/-- C4 witness: a concrete pop-and-push ordinary transition. -/
theorem claim4_witness :
    Structure.run_leaf_transition (.leaf cexC1 ['Z', 'A'] "q0" ['a', 'b'] [] 0)
        'a' 'Z' [("p", ['B', 'C'])] =
      some (.leaf cexC1 (spec_ordinary_stack ['Z', 'A'] ['B', 'C']) "p"
        (spec_ordinary_input 'a' ['a', 'b']) [] 0) :=
  claim4_ordinary_transition cexC1 ['Z', 'A'] "q0" ['a', 'b'] [] 0 'a' "p"
    ['B', 'C'] 'Z' rfl

/-- C6: an input other than the literal `'e'` containing a letter outside
the input alphabet is rejected before any search (for every fuel value,
including zero), while the literal `'e'` passes the guard unchanged. -/
theorem claim6_input_guard (fuel : Nat) (sap : SAPDA) (input : List Char) :
    (input ≠ ['e'] → (∃ a ∈ input, ¬ sap.input_alphabet.contains a) →
      run_machine fuel sap input = .rejected) ∧
    (input = ['e'] → run_machine fuel sap input = run_machine_body fuel sap input) := by
  constructor
  · intro hne ⟨a, ha, hout⟩
    have hany : input.any (fun x => ¬ sap.input_alphabet.contains x) = true :=
      List.any_eq_true.mpr ⟨a, ha, by simpa using hout⟩
    unfold run_machine
    rw [if_pos ⟨hne, hany⟩]
  · intro he
    subst he
    simp [run_machine]

/-- C6 witness: with zero fuel the guard still rejects a bad letter, and the
literal `'e'` input reaches the search. -/
theorem claim6_witness :
    run_machine 0 cexC1 ['x'] = .rejected ∧
    run_machine 0 cexC1 ['e'] = run_machine_body 0 cexC1 ['e'] :=
  ⟨(claim6_input_guard 0 cexC1 ['x']).1 (by decide) ⟨'x', by decide, by decide⟩,
   (claim6_input_guard 0 cexC1 ['e']).2 rfl⟩

/-- C5: `is_rejecting_config` holds exactly when the configuration is not
accepting and one of the four rejection predicates fires: no active
branches, tree depth above the input length, an empty transition list in
the dictionary, or a leaf with neither a valid transition nor an empty
stack. -/
theorem claim5_rejecting_iff (c : Computation) :
    is_rejecting_config c = true ↔
      (¬ is_accepting_config c = true ∧
        (get_active_branches c.configuration = [] ∨
          c.input_string.length < Structure.get_tree_depth c.configuration ∨
          (∃ kv ∈ c.transition_dict, kv.2 = []) ∨
          (∃ l ∈ Structure.get_all_leaves c.configuration,
            ¬ (Structure.has_valid_transition l = true ∨
               Structure.has_empty_stack l = true)))) := by
  unfold is_rejecting_config
  split_ifs with h1 h2 h3 h4 h5
  · simp [h1]
  · simp [h1, List.length_eq_zero.mp h2]
  · simp only [true_iff]
    exact ⟨h1, Or.inr (Or.inl h3)⟩
  · simp only [true_iff]
    obtain ⟨kv, hkv, hlen⟩ := List.any_eq_true.mp h4
    exact ⟨h1, Or.inr (Or.inr (Or.inl ⟨kv, hkv, by simpa using hlen⟩))⟩
  · simp only [true_iff]
    obtain ⟨l, hl, hcond⟩ := List.any_eq_true.mp h5
    refine ⟨h1, Or.inr (Or.inr (Or.inr ⟨l, hl, ?_⟩))⟩
    intro hor
    rcases hor with h | h <;> simp [h] at hcond
  · simp only [false_iff, not_and, not_or]
    intro _
    refine ⟨fun he => h2 (by simp [he]), by omega, ?_, ?_⟩
    · intro ⟨kv, hkv, hnil⟩
      exact h4 (List.any_eq_true.mpr ⟨kv, hkv, by simp [hnil]⟩)
    · intro ⟨l, hl, hno⟩
      refine h5 (List.any_eq_true.mpr ⟨l, hl, ?_⟩)
      simp only [Bool.or_eq_true, not_or] at hno ⊢
      simp [hno.1, hno.2]

/-- C7 counterexample: a pop whose target symbol (`'A'`) disagrees with
`stack[0]` (`'e'`) only logs a diagnostic and returns the leaf with its
stack untouched and its state updated — here a configuration of accepting
shape (empty stack, consumed input) — rather than aborting the run with an
empty trace. -/
theorem claim7_counterexample :
    Structure.run_leaf_transition (.leaf cexC1 ['e'] "q0" ['e'] [] 0) 'e' 'A'
        [("q1", ['e'])] = some (.leaf cexC1 ['e'] "q1" ['e'] [] 0) ∧
      Structure.has_empty_stack (.leaf cexC1 ['e'] "q1" ['e'] [] 0) = true ∧
      Structure.inputOf (.leaf cexC1 ['e'] "q1" ['e'] [] 0) = some ['e'] :=
  ⟨rfl, rfl, rfl⟩

/-- C7 amended: on an attempt to split a leaf with stack `['e']`, or with a
letter that is neither `'e'` nor the next input character, the engine logs
and returns no structure (`None`); on a pop whose target disagrees with the
stack top it logs and returns the leaf with state and input updated but the
stack unchanged, so the computation simply continues.  No path returns an
empty trace. -/
theorem claim7_violation_behaviour (sap : SAPDA) (st : List Char) (q : String)
    (w i : List Char) (d : Nat) (letter pop : Char) (cjs : ConjTrans)
    (ns : String) (ps : List Char) :
    (2 ≤ cjs.length →
      Structure.run_leaf_transition (.leaf sap ['e'] q w i d) letter pop cjs = none) ∧
    (2 ≤ cjs.length → st ≠ ['e'] → letter ≠ 'e' → letter ≠ head0 w →
      Structure.run_leaf_transition (.leaf sap st q w i d) letter pop cjs = none) ∧
    (st ≠ [] → head0 st ≠ pop →
      Structure.run_leaf_transition (.leaf sap st q w i d) letter pop [(ns, ps)] =
        some (.leaf sap st ns (spec_ordinary_input letter w) i d)) := by
  refine ⟨fun h2 => ?_, fun h2 hne hl hl' => ?_, fun hne hpop => ?_⟩
  · have hgt : cjs.length > 1 := h2
    simp [Structure.run_leaf_transition, Structure.split_leaf, hgt]
  · have hgt : cjs.length > 1 := h2
    simp [Structure.run_leaf_transition, Structure.split_leaf, hgt, hne, hl, hl']
  · have hlen : ¬ st.length = 0 := by simpa [List.length_eq_zero] using hne
    simp [Structure.run_leaf_transition, Structure.leaf_stack_transition,
      spec_ordinary_input, hlen, hpop]

/-- C7 amended witness: the three violation behaviours at concrete inputs. -/
theorem claim7_witness :
    Structure.run_leaf_transition (.leaf cexC1 ['e'] "q0" ['a'] [] 0) 'e' 'Z'
        [("p", ['Z']), ("r", ['Z'])] = none ∧
    Structure.run_leaf_transition (.leaf cexC1 ['Z'] "q0" ['a'] [] 0) 'b' 'Z'
        [("p", ['Z']), ("r", ['Z'])] = none ∧
    Structure.run_leaf_transition (.leaf cexC1 ['Z'] "q0" ['a'] [] 0) 'a' 'A'
        [("p", ['B'])] =
      some (.leaf cexC1 ['Z'] "p" (spec_ordinary_input 'a' ['a']) [] 0) :=
  ⟨(claim7_violation_behaviour cexC1 ['e'] "q0" ['a'] [] 0 'e' 'Z'
      [("p", ['Z']), ("r", ['Z'])] "p" ['B']).1 (by decide),
   (claim7_violation_behaviour cexC1 ['Z'] "q0" ['a'] [] 0 'b' 'Z'
      [("p", ['Z']), ("r", ['Z'])] "p" ['B']).2.1 (by decide) (by decide)
      (by decide) (by decide),
   (claim7_violation_behaviour cexC1 ['Z'] "q0" ['a'] [] 0 'a' 'A'
      [("p", ['Z']), ("r", ['Z'])] "p" ['B']).2.2 (by decide) (by decide)⟩

/-- C8 counterexample: `cex8` is a genuine choice point (its only active
leaf has two enabled transitions, none forced), yet `order_transitions`
places a non-ε conjunctive transition before the non-ε single-conjunct one,
so the claimed ordering predicate fails. -/
theorem claim8_counterexample :
    is_deterministic_transition cex8 = false ∧
    order_active_branches cex8 = [cex8leaf] ∧
    order_transitions cex8 cex8leaf =
      [('a', [("p", ['Z']), ("r", ['Z'])]), ('a', [("s", ['e'])])] ∧
    claim8order "q0" 'Z' (order_transitions cex8 cex8leaf) = false :=
  ⟨rfl, rfl, rfl, rfl⟩

theorem reorderConjuncts_length (q : String) (top : Char) :
    ∀ cjs : ConjTrans, (reorderConjuncts q top cjs).length = cjs.length
  | [] => rfl
  | c :: cs => by
    have ih := reorderConjuncts_length q top cs
    simp only [reorderConjuncts, List.length_append] at ih ⊢
    rw [List.filter_cons, List.filter_cons]
    by_cases h : c.1 = q ∧ head0 c.2 = top <;> simp [h] at ih ⊢ <;> omega

/-- C8 amended: the active leaves that have a dictionary entry are listed in
ascending `len(remaining_input) + len(stack)` order; the transition list
splits into a first block free of ε-conjunctive transitions (non-ε or
single-conjunct, in dictionary order) followed by the ε-transitions with at
least two conjuncts; and inside each of those the conjuncts that do not push
the leaf's `(state, stack-top)` pair back precede the ones that do.  (Non-ε
single-conjunct transitions need not precede the other members of the first
block.) -/
theorem claim8_ordering (c : Computation) (l : Structure) :
    List.Pairwise (fun a b => branchMeasure a ≤ branchMeasure b)
        (order_active_branches c) ∧
      (∃ A B, order_transitions c l = A ++ B ∧
        (∀ t ∈ A, ¬ (t.1 = 'e' ∧ t.2.length > 1)) ∧
        (∀ t ∈ B, t.1 = 'e' ∧ t.2.length > 1)) ∧
      (∀ t ∈ order_transitions c l, t.1 = 'e' → t.2.length > 1 →
        ∃ CA CB, t.2 = CA ++ CB ∧
          (∀ cj ∈ CA, ¬ (cj.1 = (Structure.stateOf l).iget ∧
            head0 cj.2 = head0 (Structure.stackOf l))) ∧
          (∀ cj ∈ CB, cj.1 = (Structure.stateOf l).iget ∧
            head0 cj.2 = head0 (Structure.stackOf l))) := by
  refine ⟨List.sorted_insertionSort _ _, ?_, ?_⟩
  · refine ⟨_, _, rfl, ?_, ?_⟩
    · intro t ht
      have hp := (List.mem_filter.mp ht).2
      simp only [decide_eq_true_eq] at hp
      intro ⟨he, hlen⟩
      rcases hp with h | h
      · exact h he
      · omega
    · intro t ht
      obtain ⟨s, hs, rfl⟩ := List.mem_map.mp ht
      have hp := (List.mem_filter.mp hs).2
      simp only [decide_eq_true_eq] at hp
      exact ⟨hp.1, by rw [reorderConjuncts_length]; exact hp.2⟩
  · intro t ht he hlen
    rcases List.mem_append.mp ht with hA | hB
    · have hp := (List.mem_filter.mp hA).2
      simp only [decide_eq_true_eq] at hp
      rcases hp with h | h
      · exact absurd he h
      · omega
    · obtain ⟨s, hs, rfl⟩ := List.mem_map.mp hB
      refine ⟨_, _, rfl, ?_, ?_⟩
      · intro cj hcj
        have hp := (List.mem_filter.mp hcj).2
        simpa only [decide_eq_true_eq] using hp
      · intro cj hcj
        have hp := (List.mem_filter.mp hcj).2
        simpa only [decide_eq_true_eq] using hp

/-- C8 amended witness: the ordering facts at the concrete choice point
`cex8`, and the conjunct reordering at the ε-conjunctive transition of
`cexW`. -/
theorem claim8_witness :
    List.Pairwise (fun a b => branchMeasure a ≤ branchMeasure b)
        (order_active_branches cex8) ∧
      (∃ A B, order_transitions cex8 cex8leaf = A ++ B ∧
        (∀ t ∈ A, ¬ (t.1 = 'e' ∧ t.2.length > 1)) ∧
        (∀ t ∈ B, t.1 = 'e' ∧ t.2.length > 1)) ∧
      (∃ CA CB,
        ('e', [("p", ['A']), ("q0", ['Z', 'A'])]).2 = CA ++ CB ∧
        (∀ cj ∈ CA, ¬ (cj.1 = (Structure.stateOf cexWleaf).iget ∧
          head0 cj.2 = head0 (Structure.stackOf cexWleaf))) ∧
        (∀ cj ∈ CB, cj.1 = (Structure.stateOf cexWleaf).iget ∧
          head0 cj.2 = head0 (Structure.stackOf cexWleaf))) :=
  ⟨(claim8_ordering cex8 cex8leaf).1,
   (claim8_ordering cex8 cex8leaf).2.1,
   (claim8_ordering cexW cexWleaf).2.2 ('e', [("p", ['A']), ("q0", ['Z', 'A'])])
     (by decide) rfl (by decide)⟩

theorem findList_eq_rewriteList (tsap : SAPDA) (tst : List Char) (tq : String)
    (tw ti : List Char) (td : Nat) (letter : Char) (cjs : ConjTrans) :
    ∀ children : StructureList,
      Structure.findList children (.leaf tsap tst tq tw ti td) letter cjs =
        rewriteMatchingList (.leaf tsap tst tq tw ti td) letter cjs children
  | .nil => rfl
  | .cons (.leaf csap cst cq cw ci cd) rest => by
    have ih := findList_eq_rewriteList tsap tst tq tw ti td letter cjs rest
    simp only [Structure.findList, rewriteMatchingList, rewriteMatching, ih]
  | .cons (.tree csap cst ccs) rest => by
    have ih1 := findList_eq_rewriteList tsap tst tq tw ti td letter cjs ccs
    have ih2 := findList_eq_rewriteList tsap tst tq tw ti td letter cjs rest
    have hfalse : Structure.structEq (.tree csap cst ccs)
        (.leaf tsap tst tq tw ti td) = false := rfl
    simp only [Structure.findList, rewriteMatchingList, rewriteMatching,
      Structure.find_leaf_for_transition, hfalse, Bool.false_eq_true, if_false, ih1, ih2]

/-- C10: on a tree, `find_leaf_for_transition` applies the transition to
every leaf equal (`__eq__`: automaton, stack, state, remaining input,
internal stack and depth) to the target leaf — `rewriteMatching` is worded
from the claim — so identical sibling leaves all advance in one call. -/
theorem claim10_find_leaf_all_matches (sap : SAPDA) (st : List Char)
    (children : StructureList) (tsap : SAPDA) (tst : List Char) (tq : String)
    (tw ti : List Char) (td : Nat) (letter : Char) (cjs : ConjTrans) :
    Structure.find_leaf_for_transition (.tree sap st children)
        (.leaf tsap tst tq tw ti td) letter cjs =
      rewriteMatching (.leaf tsap tst tq tw ti td) letter cjs
        (.tree sap st children) := by
  simp only [Structure.find_leaf_for_transition, rewriteMatching,
    findList_eq_rewriteList tsap tst tq tw ti td letter cjs children]

set_option maxRecDepth 40000 in
/-- C1 counterexample: on `cexC1` and input `a` the search tries both
ε-choices, backtracks out of both dead ends, empties the choice point's
transition list and falls off the end of `dfs`, so `run_machine` returns
Python's `None` — neither a trace, nor `[]`, nor `['timeout']`. -/
theorem claim1_counterexample : run_machine 30 cexC1 ['a'] = .pynone := rfl

theorem mem_of_mem_dropLast {α : Type} : ∀ {l : List α} {a : α}, a ∈ l.dropLast → a ∈ l
  | [], _, h => by simp at h
  | [x], _, h => by simp [List.dropLast] at h
  | x :: y :: ys, a, h => by
    rw [List.dropLast_cons₂] at h
    rcases List.mem_cons.mp h with rfl | h
    · exact List.mem_cons_self _ _
    · exact List.mem_cons_of_mem x (mem_of_mem_dropLast h)

theorem mem_of_getLast?_eq {α : Type} :
    ∀ {l : List α} {a : α}, l.getLast? = some a → a ∈ l
  | [], _, h => by simp at h
  | [x], _, h => by
    simp only [List.getLast?_singleton, Option.some.injEq] at h
    simp [h]
  | x :: y :: ys, a, h => by
    rw [List.getLast?_cons_cons] at h
    exact List.mem_cons_of_mem x (mem_of_getLast?_eq h)

theorem synchronise_loop_computation :
    ∀ (fuel : Nat) (c c' : Computation), synchronise_loop fuel c = some c' →
      c.computation ≠ [] → c'.computation ≠ []
  | 0, c, c', h => by simp [synchronise_loop] at h
  | fuel + 1, c, c', h => by
    intro hne
    rw [synchronise_loop] at h
    split at h
    · cases h; exact hne
    · exact synchronise_loop_computation fuel _ c' h (by simp [update, update_transition_dict])

theorem applyDetBranch_computation (fuel : Nat) (c : Computation) (b : Structure)
    (c' : Computation) (h : applyDetBranch fuel c b = .ok c')
    (hne : c.computation ≠ []) : c'.computation ≠ [] := by
  unfold applyDetBranch at h
  split at h
  · split at h
    · cases h
    · split at h
      · cases h
      · cases h
        exact synchronise_loop_computation fuel _ _ (by assumption)
          (by simp [update, update_transition_dict])
  · cases h; exact hne

theorem detFold_computation (fuel : Nat) :
    ∀ (bs : List Structure) (c c' : Computation), detFold fuel c bs = .ok c' →
      c.computation ≠ [] → c'.computation ≠ []
  | [], c, c', h => by cases h; exact id
  | b :: rest, c, c', h => by
    intro hne
    rw [detFold] at h
    split at h
    · cases h
    · exact detFold_computation fuel rest _ c' h
        (applyDetBranch_computation fuel c b _ (by assumption) hne)

theorem detLoop_computation (fuel : Nat) :
    ∀ (loopFuel : Nat) (c : Computation) (ab : Bool × Bool) (c' : Computation),
      detLoop fuel loopFuel c = .ok (ab, c') →
      c.computation ≠ [] → c'.computation ≠ []
  | 0, c, ab, c', h => by cases h
  | loopFuel + 1, c, ab, c', h => by
    intro hne
    rw [detLoop] at h
    split at h
    · split at h
      · cases h
      · rename_i c1 hc1
        have h1 : c1.computation ≠ [] := synchronise_loop_computation fuel c c1 hc1 hne
        split at h
        · cases h; exact h1
        · split at h
          · cases h; exact h1
          · split at h
            · cases h
            · rename_i c2 hc2
              exact detLoop_computation fuel loopFuel c2 ab c' h
                (detFold_computation fuel _ c1 c2 hc2 h1)
    · split at h
      · cases h; exact hne
      · split at h
        · cases h; exact hne
        · cases h; exact hne

theorem run_det_computation (fuel : Nat) (c : Computation) (ab : Bool × Bool)
    (c' : Computation) (h : run_deterministic_transitions fuel c = .ok (ab, c'))
    (hne : c.computation ≠ []) : c'.computation ≠ [] := by
  unfold run_deterministic_transitions at h
  split at h
  · cases h
  · rename_i c1 hc1
    exact detLoop_computation fuel fuel c1 ab c' h
      (synchronise_loop_computation fuel c c1 hc1 hne)

theorem scanTrans_accepted (fuel : Nat) (c : Computation) (lf : Structure) :
    ∀ (ts : List DictTrans) (t : List Structure),
      scanTrans fuel c lf ts = .accepted t → c.computation ≠ [] → t ≠ []
  | [], t, h => by cases h
  | (letter, conjuncts) :: rest, t, h => by
    intro hne
    rw [scanTrans] at h
    split at h
    · cases h
    · rename_i accept reject c'' hdet
      split at h
      · cases h
        exact run_det_computation fuel _ _ c'' hdet hne
      · split at h
        · split at h
          · cases h
          · exact scanTrans_accepted fuel c lf rest t h hne
        · cases h

theorem scanTrans_indet (fuel : Nat) (c : Computation) (lf : Structure) :
    ∀ (ts : List DictTrans) (letter : Char) (cjs : ConjTrans) (c'' : Computation),
      scanTrans fuel c lf ts = .indet letter cjs c'' →
      c.computation ≠ [] → c''.computation ≠ []
  | [], letter, cjs, c'', h => by cases h
  | (l0, cj0) :: rest, letter, cjs, c'', h => by
    intro hne
    rw [scanTrans] at h
    split at h
    · cases h
    · rename_i accept reject cdrv hdet
      split at h
      · cases h
      · split at h
        · split at h
          · cases h
          · exact scanTrans_indet fuel c lf rest letter cjs c'' h hne
        · cases h
          exact run_det_computation fuel _ _ c'' hdet hne

theorem dfs_no_pystr_acc_ne :
    ∀ (fuel : Nat) (c : Computation) (depth : Nat) (path : List Frame),
      path.length = depth → (∀ fr ∈ path, fr.computation ≠ []) →
      c.computation ≠ [] →
      dfs fuel c depth path ≠ .pyStr ∧
        ∀ t, dfs fuel c depth path = .acc t → t ≠ []
  | 0, c, depth, path, _, _, _ => by
    rw [dfs]
    exact ⟨(fun h => by cases h), (fun t h => by cases h)⟩
  | fuel + 1, c, depth, path, hlen, hpath, hne => by
    rw [dfs]
    split
    · exact ⟨(fun h => by cases h), (fun t h => by cases h)⟩
    · rename_i lf hlf
      split
      · exact ⟨(fun h => by cases h), (fun t h => by cases h)⟩
      · exact ⟨(fun h => by cases h), (fun t h => by cases h)⟩
      · rename_i t0 hsc
        refine ⟨(fun h => by cases h), fun t h => ?_⟩
        cases h
        exact scanTrans_accepted fuel c lf _ t0 hsc hne
      · rename_i letter conjuncts c'' hsc
        apply dfs_no_pystr_acc_ne fuel c'' (depth + 1)
        · simp [hlen]
        · intro fr hfr
          rcases List.mem_append.mp hfr with hin | hone
          · exact hpath fr hin
          · simp at hone
            subst hone
            exact hne
        · exact scanTrans_indet fuel c lf _ letter conjuncts c'' hsc hne
      · split
        · exact ⟨(fun h => by cases h), (fun t h => by cases h)⟩
        · rename_i hdepth0
          cases hg : path.getLast? with
          | none =>
            exfalso
            rw [List.getLast?_eq_none_iff] at hg
            rw [hg] at hlen
            simp at hlen
            exact hdepth0 hlen.symm
          | some fr =>
            simp only [hg]
            cases hl : (mkComputation c.sapda c.input_string fr.computation
                fr.configuration fr.transition_dict fr.is_leaf).transition_dict.lookup
                (Structure.dict_key fr.leaf) with
            | none =>
              simp only [hl]
              exact ⟨(fun h => by cases h), (fun t h => by cases h)⟩
            | some entry =>
              simp only [hl]
              split
              · apply dfs_no_pystr_acc_ne fuel _ (depth - 1) path.dropLast
                · rw [List.length_dropLast, hlen]
                · exact fun fr' hfr' => hpath fr' (mem_of_mem_dropLast hfr')
                · exact hpath fr (mem_of_getLast?_eq hg)
              · exact ⟨(fun h => by cases h), (fun t h => by cases h)⟩

/-- C1 amended: besides a (never-empty) accepting trace, the empty list and
`['timeout']`, `run_machine` has two further outcomes the claim omits: the
implicit `None` when `dfs` falls off the end of its leaf loop (see
`claim1_counterexample`), and no normal return at all (`stuck`) when the
unguarded deterministic drive diverges or an internal error corrupts the
structure.  No other value — in particular not the backtracking error
string — is possible. -/
theorem claim1_run_machine_outcomes (fuel : Nat) (sap : SAPDA) (input : List Char) :
    (∃ t, run_machine fuel sap input = .accepted t ∧ t ≠ []) ∨
      run_machine fuel sap input = .rejected ∨
      run_machine fuel sap input = .timeout ∨
      run_machine fuel sap input = .pynone ∨
      run_machine fuel sap input = .stuck := by
  unfold run_machine
  split
  · exact Or.inr (Or.inl rfl)
  · unfold run_machine_body
    have hinit : (initComputation sap input).computation ≠ [] := by
      simp [initComputation, update_transition_dict]
    split
    · exact Or.inr (Or.inr (Or.inr (Or.inr rfl)))
    · rename_i accept reject c' hdet
      split
      · exact Or.inl ⟨c'.computation, rfl,
          run_det_computation fuel _ _ c' hdet hinit⟩
      · split
        · exact Or.inr (Or.inl rfl)
        · have hc' : c'.computation ≠ [] :=
            run_det_computation fuel _ _ c' hdet hinit
          have hdfs := dfs_no_pystr_acc_ne fuel c' 0 [] rfl (by simp) hc'
          split
          · rename_i t ht
            exact Or.inl ⟨t, rfl, hdfs.2 t ht⟩
          · exact Or.inr (Or.inl rfl)
          · exact Or.inr (Or.inr (Or.inr (Or.inl rfl)))
          · rename_i ht
            exact absurd ht hdfs.1
          · exact Or.inr (Or.inr (Or.inl rfl))
          · exact Or.inr (Or.inr (Or.inr (Or.inr rfl)))

end Sapda
